import Mathlib

/-!
# A shallow embedding of the tiny-evm core

This file embeds the core of the `tiny-evm` interpreter (an EVM bytecode
interpreter for a single non-recursive call) into Lean 4 and proves the
specification claims about it.

Conventions of the embedding:
* `u256` values, `usize` indices and single bytes are all represented as
  `Nat`; wrapping 256-bit arithmetic applies `% U256_MOD` explicitly and
  the `usize` guards compare against `USIZE_MAX` (a 64-bit host).
* Byte buffers (`bytecode`, `calldata`, memory, return data) are `List Nat`.
* The operand stack is a `List Nat` whose head is the top of the stack
  (the Rust `Vec` keeps the top at the end; `read(k)`/`swap_with_top(k)`
  address the element `k` positions from the top, which is index `k` here).
* Storage (a `HashMap<U256, U256>` in the source) is an association list;
  `insert` conses a fresh binding, `get` takes the first binding found,
  which is observationally the map behaviour.
* Fallible operations return `Except`.  The `assert!(data_len <= length)`
  inside `Memory::write` is a process abort, not an `ExecutionError`; it is
  modelled as the distinguished outcome `StepError.assertionFailed`.
* The Keccak-256 function comes from an external crate (`sha3`); the whole
  interpreter is parameterised by a function `keccak : List Nat → Nat`
  standing for `U256::from(Keccak256(data))`.
-/

namespace TinyEvm

/-- `2^256`, the modulus of wrapping `u256` arithmetic. -/
def U256_MOD : Nat := 2 ^ 256

/-- `usize::MAX` on the 64-bit hosts the crate targets. -/
def USIZE_MAX : Nat := 2 ^ 64 - 1

/-- `memory.rs`: `MEMORY_LIMIT = 128 * 1024 * 1024` (128 MiB). -/
def MEMORY_LIMIT : Nat := 128 * 1024 * 1024

/-- `stack.rs`: `MAX_STACK_DEPTH = 1024`. -/
def MAX_STACK_DEPTH : Nat := 1024

/-- Big-endian interpretation of a byte string, as done by
`U256::from_big_endian` (and `U256::from(&[u8])`). -/
def beVal (l : List Nat) : Nat := l.foldl (fun acc b => acc * 256 + b) 0

/-- The `n`-byte big-endian serialization of a value, as done by
`U256::to_big_endian` into an `n`-byte buffer. -/
def natToBeBytes : Nat → Nat → List Nat
  | 0, _ => []
  | n + 1, v => natToBeBytes n (v / 256) ++ [v % 256]

/-- `execution_error.rs`: the `ExecutionError` enum.  `UnsupportedOpcode`
carries the opcode, represented by its byte value. -/
inductive ExecutionError where
  | stackOverflow
  | stackUnderflow
  | invalidJump
  | revert
  | invalidOpcode
  | outOfGas
  | unsupportedOpcode (op : Nat)
deriving DecidableEq

/-- The outcome of one handler: an `ExecutionError` propagated with `?`, or
the abort of the `assert!` inside `Memory::write`. -/
inductive StepError where
  | exec (e : ExecutionError)
  | assertionFailed
deriving DecidableEq

/-- `opcode_handlers.rs`: the `ExecutionStatus` enum. -/
inductive ExecutionStatus where
  | running
  | halted
deriving DecidableEq

/-- `evm.rs`: the `ExecutionResult` struct. -/
structure ExecutionResult where
  returnData : List Nat
  error : Option ExecutionError
deriving DecidableEq

/-! ## Bytecode view (`bytecode.rs`) -/

/-- `bytecode.rs::instruction_size`: `n + 1` for `PUSHn`, else `1`.
`PUSH1 as u8 = 0x60` and `PUSH32 as u8 = 0x7F` per the opcode table. -/
def instructionSize (op : Nat) : Nat :=
  if 0x60 ≤ op ∧ op ≤ 0x7F then op - 0x60 + 2 else 1

/-- The linear walk of `BytecodeIterator` collecting the positions whose
opcode is `JUMPDEST (0x5B)`.  The walk advances by `instructionSize` and
stops past the end of the code; the `fuel` argument (instantiated with
`code.length`, an upper bound on the number of iterations) makes the
recursion structural. -/
def scanJumpdests (code : List Nat) : Nat → Nat → List Nat
  | 0, _ => []
  | fuel + 1, pc =>
    if pc < code.length then
      let op := code.getD pc 0
      if op = 0x5B then pc :: scanJumpdests code fuel (pc + instructionSize op)
      else scanJumpdests code fuel (pc + instructionSize op)
    else []

/-- `Bytecode::new`: the precomputed `jumpdests` set. -/
def jumpdests (code : List Nat) : List Nat :=
  scanJumpdests code code.length 0

/-- `Bytecode::is_jumpdest`. -/
def isJumpdest (code : List Nat) (pc : Nat) : Bool :=
  if code.length ≤ pc then false else (jumpdests code).contains pc

/-- `Bytecode::read_push_value`: zero if `start` is past the end, else the
big-endian parse of the bytes physically present in
`code[start..min(start+length, size)]`. -/
def readPushValue (code : List Nat) (start length : Nat) : Nat :=
  if code.length ≤ start then 0
  else beVal ((code.drop start).take (min (start + length) code.length - start))

/-! ## Signed 256-bit bridge

Modelled from the spec: `src/i256.rs` is not among the provided sources
(only its callers in `opcode_handlers.rs` are), so the `i256` type of
section 4.5 of the spec is modelled here: a `u256` is read as a
two's-complement integer, division and modulo are truncated (toward zero)
with the EVM edge cases `x / 0 = 0`, `x % 0 = 0` and
`MIN_I256 / (-1) = MIN_I256`, and comparison is signed. -/

/-- Two's-complement reading of a `u256` (spec 4.5: sign `Minus` with
magnitude `2^256 - u` when bit 255 is set). -/
def u256ToI (u : Nat) : Int :=
  if 2 ^ 255 ≤ u then (u : Int) - 2 ^ 256 else (u : Int)

/-- Back from the signed view to a `u256` (spec 4.5: `Minus` re-complements
to `2^256 - magnitude`). -/
def i256ToU (i : Int) : Nat := (i % (2 ^ 256 : Int)).toNat

/-- `SDIV`: truncated signed division, `x / 0 = 0`, overflow wraps. -/
def i256Div (a b : Nat) : Nat :=
  if b = 0 then 0 else i256ToU (Int.tdiv (u256ToI a) (u256ToI b))

/-- Truncated signed remainder (the `SMOD` handler checks the zero divisor
itself before calling this). -/
def i256Mod (a b : Nat) : Nat :=
  i256ToU (Int.tmod (u256ToI a) (u256ToI b))

/-- Signed comparison used by `SLT` / `SGT`. -/
def i256Lt (a b : Nat) : Bool := u256ToI a < u256ToI b

/-! ## Memory (`memory.rs`) -/

/-- The rounding in `Memory::resize_if_necessary`:
`length` if `length % 32 == 0`, else `length - length % 32 + 32`. -/
def roundedLength (length : Nat) : Nat :=
  if length % 32 = 0 then length else length - length % 32 + 32

/-- `Memory::resize_if_necessary`: grow (zero-filled) to the rounded
length, failing with `OutOfGas` past `MEMORY_LIMIT`. -/
def resizeIfNecessary (m : List Nat) (length : Nat) : Except ExecutionError (List Nat) :=
  if roundedLength length ≤ m.length then .ok m
  else if MEMORY_LIMIT < roundedLength length then .error .outOfGas
  else .ok (m ++ List.replicate (roundedLength length - m.length) 0)

/-- `Memory::read`: grow, then borrow `length` bytes at `offset`.  Returns
the grown memory together with the bytes read. -/
def memRead (m : List Nat) (offset length : Nat) :
    Except ExecutionError (List Nat × List Nat) :=
  match resizeIfNecessary m (offset + length) with
  | .error e => .error e
  | .ok m2 => .ok (m2, (m2.drop offset).take length)

/-- `Memory::write`: `assert!(data_len <= length)`, grow to
`offset + length`, then copy `data` over `[offset, offset + data_len)`. -/
def memWrite (m : List Nat) (offset length : Nat) (data : List Nat) :
    Except StepError (List Nat) :=
  if data.length ≤ length then
    match resizeIfNecessary m (offset + length) with
    | .error e => .error (.exec e)
    | .ok m2 => .ok (m2.take offset ++ data ++ m2.drop (offset + data.length))
  else .error .assertionFailed

/-! ## Contexts (`context.rs`)

Addresses widen to `u256` by big-endian left-zero-padding
(`address_to_u256`), so the 20-byte address fields are carried directly as
their widened `Nat` value; the `u32` block fields likewise. -/

/-- `context.rs::CallContext`. -/
structure CallContext where
  value : Nat
  calldata : List Nat
  contractAddress : Nat
  callerAddress : Nat
  originAddress : Nat
  gasPrice : Nat
deriving DecidableEq

/-- `context.rs::BlockContext`. -/
structure BlockContext where
  coinbaseAddress : Nat
  timestamp : Nat
  number : Nat
  gasLimit : Nat
  difficulty : Nat
  chainId : Nat
deriving DecidableEq

/-- The `Default` impl for `CallContext` (all zero / empty). -/
def ccDefault : CallContext := ⟨0, [], 0, 0, 0, 0⟩

/-- The `Default` impl for `BlockContext` (all zero). -/
def bcDefault : BlockContext := ⟨0, 0, 0, 0, 0, 0⟩

/-! ## VM state (`vm.rs`) -/

/-- `vm.rs::VmState`.  The stack stores the top at the head; storage is an
association list read through `List.lookup`. -/
structure VmState where
  pc : Nat
  stack : List Nat
  memory : List Nat
  returnData : List Nat
  storage : List (Nat × Nat)
deriving DecidableEq

/-- `VmState::new` (the capacity hints of the source affect allocation
only, not contents: stack, memory, return data and storage start empty). -/
def VmState.new : VmState := ⟨0, [], [], [], []⟩

/-- `HashMap::get(...).unwrap_or(&zero)`: missing keys read as zero. -/
def storageGet (st : List (Nat × Nat)) (k : Nat) : Nat :=
  (st.lookup k).getD 0

/-! ## Opcode handlers (`opcode_handlers.rs`)

Handlers mutate the Rust `VmState` in place and return
`Result<ExecutionStatus, ExecutionError>`; here each handler returns the
final state paired with that result, so partial mutation before a failure
(e.g. the pops before a stack underflow) is preserved. -/

/-- The result of one executed opcode. -/
abbrev StepRes := Except StepError ExecutionStatus

/-- `Stack::push` followed by `Ok(Running)` (the tail of most handlers):
fails with `StackOverflow` when the stack holds `MAX_STACK_DEPTH`
elements. -/
def pushV (s : VmState) (v : Nat) : VmState × StepRes :=
  if s.stack.length = MAX_STACK_DEPTH then (s, .error (.exec .stackOverflow))
  else ({ s with stack := v :: s.stack }, .ok .running)

/-- A handler that pops `u0` and `u1` and pushes `f u0 u1`.  A failing
second pop leaves the first pop done, as in the source. -/
def opBin (f : Nat → Nat → Nat) (s : VmState) : VmState × StepRes :=
  match s.stack with
  | a :: b :: rest => pushV { s with stack := rest } (f a b)
  | [_] => ({ s with stack := [] }, .error (.exec .stackUnderflow))
  | [] => (s, .error (.exec .stackUnderflow))

/-- A handler that pops `u0` and pushes `f u0`. -/
def opUn (f : Nat → Nat) (s : VmState) : VmState × StepRes :=
  match s.stack with
  | a :: rest => pushV { s with stack := rest } (f a)
  | [] => (s, .error (.exec .stackUnderflow))

/-- A handler that pops `u0`, `u1`, `u2` and pushes `f u0 u1 u2`
(`ADDMOD` / `MULMOD`). -/
def opTer (f : Nat → Nat → Nat → Nat) (s : VmState) : VmState × StepRes :=
  match s.stack with
  | a :: b :: c :: rest => pushV { s with stack := rest } (f a b c)
  | [_, _] => ({ s with stack := [] }, .error (.exec .stackUnderflow))
  | [_] => ({ s with stack := [] }, .error (.exec .stackUnderflow))
  | [] => (s, .error (.exec .stackUnderflow))

/-- Wrapping subtraction `u0.overflowing_sub(u1)`. -/
def u256Sub (a b : Nat) : Nat := (a + U256_MOD - b % U256_MOD) % U256_MOD

/-- Bitwise `!u0` on 256 bits. -/
def u256Not (a : Nat) : Nat := U256_MOD - 1 - a % U256_MOD

/-- `SIGNEXTEND` (the `Opcode::SIGNEXTEND` arm): `u0 ≥ 32` returns `u1`
unchanged; else the bit at `256 - 8*(u0+1)` decides between `u1 | !mask`
and `u1 & mask` for `mask = (1 << sig_bit) - 1`. -/
def signextendOp (u0 u1 : Nat) : Nat :=
  if u0 < 32 then
    let sigBit := 256 - 8 * (u0 + 1)
    let mask := 2 ^ sigBit - 1
    if u1.testBit sigBit then u1 ||| (U256_MOD - 1 - mask) else u1 &&& mask
  else u1

/-- `BYTE`: zero when `u0 > 31`, else `(u1 >> (31 - u0) * 8) & 0xFF`. -/
def byteOp (u0 u1 : Nat) : Nat :=
  if 31 < u0 then 0 else (u1 >>> ((31 - u0) * 8)) &&& 0xFF

/-- `SHL` (`u1 << u0` through the `uint` crate; spec 4.6: a shift count of
256 or more yields zero). -/
def shlOp (u0 u1 : Nat) : Nat :=
  if 256 ≤ u0 then 0 else (u1 <<< u0) % U256_MOD

/-- `SHR` (`u1 >> u0`; spec 4.6: a shift count of 256 or more yields
zero). -/
def shrOp (u0 u1 : Nat) : Nat :=
  if 256 ≤ u0 then 0 else u1 >>> u0

/-- The `Opcode::SAR` arm, as written in the source: for a nonzero value
and shift `≥ 256` the source compares `u1 > U256::zero()` — an unsigned
comparison that is always true there — so that branch returns zero; for
shifts `< 256` a negative value is shifted as `((|x|-1) >> s) + 1` and
re-complemented. -/
def sarOp (u0 u1 : Nat) : Nat :=
  if u1 = 0 then 0
  else if 256 ≤ u0 then
    if 0 < u1 then 0 else U256_MOD - 1
  else if u1 < 2 ^ 255 then u1 >>> u0
  else
    let value := U256_MOD - u1
    let shifted := ((value - 1) >>> u0) + 1
    U256_MOD - shifted

/-- `opcode_handlers.rs::get_slice`: empty past the end, else
`data[start..min(start+length, len)]`. -/
def getSlice (data : List Nat) (start length : Nat) : List Nat :=
  if data.length ≤ start then []
  else (data.drop start).take (min (start + length) data.length - start)

/-- `ensure_fits_usize`: `OutOfGas` when the value exceeds `usize::MAX`. -/
def ensureFitsUsize (n : Nat) : Except ExecutionError Unit :=
  if USIZE_MAX < n then .error .outOfGas else .ok ()

/-- `ensure_offset_and_length_fit_usize`: `OutOfGas` when `offset + length`
overflows 256 bits or exceeds `usize::MAX`. -/
def ensureOffsetAndLengthFitUsize (offset length : Nat) : Except ExecutionError Unit :=
  if U256_MOD ≤ offset + length then .error .outOfGas
  else ensureFitsUsize (offset + length)

/-- `opcode_handlers.rs::push_handler`: read the immediate at `pc`, push
it, then advance `pc` by `size` (not advanced when the push overflows). -/
def pushHandler (code : List Nat) (size : Nat) (s : VmState) : VmState × StepRes :=
  if s.stack.length = MAX_STACK_DEPTH then (s, .error (.exec .stackOverflow))
  else ({ s with stack := readPushValue code s.pc size :: s.stack, pc := s.pc + size },
        .ok .running)

/-- `opcode_handlers.rs::dup_handler`: `stack.read(n-1)` then push. -/
def dupHandler (n : Nat) (s : VmState) : VmState × StepRes :=
  if s.stack.length ≤ n - 1 then (s, .error (.exec .stackUnderflow))
  else pushV s (s.stack.getD (n - 1) 0)

/-- `opcode_handlers.rs::swap_handler` / `Stack::swap_with_top`: swap the
top with the element `n` positions below it. -/
def swapHandler (n : Nat) (s : VmState) : VmState × StepRes :=
  if s.stack.length ≤ n then (s, .error (.exec .stackUnderflow))
  else ({ s with stack := (s.stack.set 0 (s.stack.getD n 0)).set n (s.stack.getD 0 0) },
        .ok .running)

/-- `opcode_handlers.rs::jump`: `InvalidJump` when `dest ≥ code.size` or
`dest` is not a jump destination; else set `pc = dest`. -/
def jumpTo (code : List Nat) (s : VmState) (dest : Nat) : VmState × StepRes :=
  if code.length ≤ dest then (s, .error (.exec .invalidJump))
  else if isJumpdest code dest then ({ s with pc := dest }, .ok .running)
  else (s, .error (.exec .invalidJump))

/-- `opcode_handlers.rs::data_copy_handler` (CALLDATACOPY / CODECOPY /
RETURNDATACOPY): pop `dest`, `src`, `len`; a source offset past
`usize::MAX` reads as empty; otherwise guard `src + len` and slice; then
write into memory. -/
def dataCopyHandler (src : List Nat) (s : VmState) : VmState × StepRes :=
  match s.stack with
  | u0 :: u1 :: u2 :: rest =>
    let s1 := { s with stack := rest }
    match ensureFitsUsize u0 with
    | .error e => (s1, .error (.exec e))
    | .ok _ =>
      if USIZE_MAX < u1 then
        match memWrite s1.memory u0 u2 [] with
        | .error e => (s1, .error e)
        | .ok m2 => ({ s1 with memory := m2 }, .ok .running)
      else
        match ensureOffsetAndLengthFitUsize u1 u2 with
        | .error e => (s1, .error (.exec e))
        | .ok _ =>
          match memWrite s1.memory u0 u2 (getSlice src u1 u2) with
          | .error e => (s1, .error e)
          | .ok m2 => ({ s1 with memory := m2 }, .ok .running)
  | [_, _] => ({ s with stack := [] }, .error (.exec .stackUnderflow))
  | [_] => ({ s with stack := [] }, .error (.exec .stackUnderflow))
  | [] => (s, .error (.exec .stackUnderflow))

/-- The `Opcode::SHA3` arm: guard `offset + length`; when `offset` is past
the current memory size, hash `length` zero bytes without growing memory
(after failing `OutOfGas` for `length ≥ MEMORY_LIMIT`); otherwise hash
the memory slice read (which grows memory). -/
def sha3Handler (keccak : List Nat → Nat) (s : VmState) : VmState × StepRes :=
  match s.stack with
  | u0 :: u1 :: rest =>
    let s1 := { s with stack := rest }
    match ensureOffsetAndLengthFitUsize u0 u1 with
    | .error e => (s1, .error (.exec e))
    | .ok _ =>
      if s1.memory.length ≤ u0 then
        if MEMORY_LIMIT ≤ u1 then (s1, .error (.exec .outOfGas))
        else pushV s1 (keccak (List.replicate u1 0))
      else
        match memRead s1.memory u0 u1 with
        | .error e => (s1, .error (.exec e))
        | .ok (m2, data) => pushV { s1 with memory := m2 } (keccak data)
  | [_] => ({ s with stack := [] }, .error (.exec .stackUnderflow))
  | [] => (s, .error (.exec .stackUnderflow))

/-- The `Opcode::MLOAD` arm. -/
def mloadHandler (s : VmState) : VmState × StepRes :=
  match s.stack with
  | u0 :: rest =>
    let s1 := { s with stack := rest }
    match ensureFitsUsize u0 with
    | .error e => (s1, .error (.exec e))
    | .ok _ =>
      match memRead s1.memory u0 32 with
      | .error e => (s1, .error (.exec e))
      | .ok (m2, data) => pushV { s1 with memory := m2 } (beVal data)
  | [] => (s, .error (.exec .stackUnderflow))

/-- The `Opcode::MSTORE` arm: write the 32-byte big-endian serialization
of `u1` at `u0`. -/
def mstoreHandler (s : VmState) : VmState × StepRes :=
  match s.stack with
  | u0 :: u1 :: rest =>
    let s1 := { s with stack := rest }
    match ensureFitsUsize u0 with
    | .error e => (s1, .error (.exec e))
    | .ok _ =>
      match memWrite s1.memory u0 32 (natToBeBytes 32 u1) with
      | .error e => (s1, .error e)
      | .ok m2 => ({ s1 with memory := m2 }, .ok .running)
  | [_] => ({ s with stack := [] }, .error (.exec .stackUnderflow))
  | [] => (s, .error (.exec .stackUnderflow))

/-- The `Opcode::MSTORE8` arm: write the low byte of `u1` at `u0`. -/
def mstore8Handler (s : VmState) : VmState × StepRes :=
  match s.stack with
  | u0 :: u1 :: rest =>
    let s1 := { s with stack := rest }
    match ensureFitsUsize u0 with
    | .error e => (s1, .error (.exec e))
    | .ok _ =>
      match memWrite s1.memory u0 1 [u1 % 256] with
      | .error e => (s1, .error e)
      | .ok m2 => ({ s1 with memory := m2 }, .ok .running)
  | [_] => ({ s with stack := [] }, .error (.exec .stackUnderflow))
  | [] => (s, .error (.exec .stackUnderflow))

/-- The `Opcode::RETURN` arm: read memory, append to the return data,
halt. -/
def returnHandler (s : VmState) : VmState × StepRes :=
  match s.stack with
  | u0 :: u1 :: rest =>
    let s1 := { s with stack := rest }
    match ensureOffsetAndLengthFitUsize u0 u1 with
    | .error e => (s1, .error (.exec e))
    | .ok _ =>
      match memRead s1.memory u0 u1 with
      | .error e => (s1, .error (.exec e))
      | .ok (m2, data) =>
        ({ s1 with memory := m2, returnData := s1.returnData ++ data }, .ok .halted)
  | [_] => ({ s with stack := [] }, .error (.exec .stackUnderflow))
  | [] => (s, .error (.exec .stackUnderflow))

/-- The `Opcode::REVERT` arm: read memory, append to the return data, fail
with `Revert`. -/
def revertHandler (s : VmState) : VmState × StepRes :=
  match s.stack with
  | u0 :: u1 :: rest =>
    let s1 := { s with stack := rest }
    match ensureOffsetAndLengthFitUsize u0 u1 with
    | .error e => (s1, .error (.exec e))
    | .ok _ =>
      match memRead s1.memory u0 u1 with
      | .error e => (s1, .error (.exec e))
      | .ok (m2, data) =>
        ({ s1 with memory := m2, returnData := s1.returnData ++ data },
         .error (.exec .revert))
  | [_] => ({ s with stack := [] }, .error (.exec .stackUnderflow))
  | [] => (s, .error (.exec .stackUnderflow))

/-- The `Opcode::POP` arm. -/
def popHandler (s : VmState) : VmState × StepRes :=
  match s.stack with
  | _ :: rest => ({ s with stack := rest }, .ok .running)
  | [] => (s, .error (.exec .stackUnderflow))

/-- The `Opcode::SLOAD` arm: missing keys read as zero. -/
def sloadHandler (s : VmState) : VmState × StepRes :=
  match s.stack with
  | u0 :: rest => pushV { s with stack := rest } (storageGet s.storage u0)
  | [] => (s, .error (.exec .stackUnderflow))

/-- The `Opcode::SSTORE` arm: `storage.insert(u0, u1)`. -/
def sstoreHandler (s : VmState) : VmState × StepRes :=
  match s.stack with
  | u0 :: u1 :: rest =>
    ({ s with stack := rest, storage := (u0, u1) :: s.storage }, .ok .running)
  | [_] => ({ s with stack := [] }, .error (.exec .stackUnderflow))
  | [] => (s, .error (.exec .stackUnderflow))

/-- The `Opcode::JUMP` arm: pop the destination and jump. -/
def jumpOpHandler (code : List Nat) (s : VmState) : VmState × StepRes :=
  match s.stack with
  | u0 :: rest => jumpTo code { s with stack := rest } u0
  | [] => (s, .error (.exec .stackUnderflow))

/-- The `Opcode::JUMPI` arm: jump when the popped condition is nonzero. -/
def jumpiOpHandler (code : List Nat) (s : VmState) : VmState × StepRes :=
  match s.stack with
  | u0 :: u1 :: rest =>
    if u1 ≠ 0 then jumpTo code { s with stack := rest } u0
    else ({ s with stack := rest }, .ok .running)
  | [_] => ({ s with stack := [] }, .error (.exec .stackUnderflow))
  | [] => (s, .error (.exec .stackUnderflow))

/-- `opcode_handlers.rs::execute_opcode`.  Opcodes are carried by their
byte value; the byte-to-mnemonic assignment of the 256-entry table
(`opcodes.rs`, not among the provided sources) is modelled from the spec:
its section 4.1 fixes the Istanbul-era assignment with `PUSH1..PUSH32` at
`0x60..0x7F`, `DUP1..DUP16` at `0x80..0x8F`, `SWAP1..SWAP16` at
`0x90..0x9F`, `LOG0..LOG4` at `0xA0..0xA4`, and every unassigned byte
(equivalently the explicit `UNRECOGNIZED..` variants, plus `INVALID` at
`0xFE`) raising `InvalidOpcode`. -/
def executeOpcode (keccak : List Nat → Nat) (op : Nat) (code : List Nat)
    (cc : CallContext) (bc : BlockContext) (s : VmState) : VmState × StepRes :=
  if 0x60 ≤ op ∧ op ≤ 0x7F then pushHandler code (op - 0x60 + 1) s
  else if 0x80 ≤ op ∧ op ≤ 0x8F then dupHandler (op - 0x80 + 1) s
  else if 0x90 ≤ op ∧ op ≤ 0x9F then swapHandler (op - 0x90 + 1) s
  else if 0xA0 ≤ op ∧ op ≤ 0xA4 then (s, .error (.exec (.unsupportedOpcode op)))
  else if op = 0x00 then (s, .ok .halted)
  else if op = 0x01 then opBin (fun a b => (a + b) % U256_MOD) s
  else if op = 0x02 then opBin (fun a b => (a * b) % U256_MOD) s
  else if op = 0x03 then opBin u256Sub s
  else if op = 0x04 then opBin (fun a b => if b = 0 then 0 else a / b) s
  else if op = 0x05 then opBin i256Div s
  else if op = 0x06 then opBin (fun a b => if b = 0 then 0 else a % b) s
  else if op = 0x07 then opBin (fun a b => if b = 0 then 0 else i256Mod a b) s
  else if op = 0x08 then opTer (fun a b c => if c = 0 then 0 else (a + b) % c) s
  else if op = 0x09 then opTer (fun a b c => if c = 0 then 0 else (a * b) % c) s
  else if op = 0x0A then opBin (fun a b => (a ^ b) % U256_MOD) s
  else if op = 0x0B then opBin signextendOp s
  else if op = 0x10 then opBin (fun a b => if a < b then 1 else 0) s
  else if op = 0x11 then opBin (fun a b => if b < a then 1 else 0) s
  else if op = 0x12 then opBin (fun a b => if i256Lt a b then 1 else 0) s
  else if op = 0x13 then opBin (fun a b => if i256Lt b a then 1 else 0) s
  else if op = 0x14 then opBin (fun a b => if a = b then 1 else 0) s
  else if op = 0x15 then opUn (fun a => if a = 0 then 1 else 0) s
  else if op = 0x16 then opBin (fun a b => a &&& b) s
  else if op = 0x17 then opBin (fun a b => a ||| b) s
  else if op = 0x18 then opBin (fun a b => a ||| b) s
  else if op = 0x19 then opUn u256Not s
  else if op = 0x1A then opBin byteOp s
  else if op = 0x1B then opBin shlOp s
  else if op = 0x1C then opBin shrOp s
  else if op = 0x1D then opBin sarOp s
  else if op = 0x20 then sha3Handler keccak s
  else if op = 0x30 then pushV s cc.contractAddress
  else if op = 0x31 then (s, .error (.exec (.unsupportedOpcode op)))
  else if op = 0x32 then pushV s cc.originAddress
  else if op = 0x33 then pushV s cc.callerAddress
  else if op = 0x34 then pushV s cc.value
  else if op = 0x35 then opUn (fun a => if USIZE_MAX < a then 0 else beVal (getSlice cc.calldata a 32)) s
  else if op = 0x36 then pushV s cc.calldata.length
  else if op = 0x37 then dataCopyHandler cc.calldata s
  else if op = 0x38 then pushV s code.length
  else if op = 0x39 then dataCopyHandler code s
  else if op = 0x3A then pushV s cc.gasPrice
  else if op = 0x3B then (s, .error (.exec (.unsupportedOpcode op)))
  else if op = 0x3C then (s, .error (.exec (.unsupportedOpcode op)))
  else if op = 0x3D then pushV s s.returnData.length
  else if op = 0x3E then dataCopyHandler s.returnData s
  else if op = 0x3F then (s, .error (.exec (.unsupportedOpcode op)))
  else if op = 0x40 then (s, .error (.exec (.unsupportedOpcode op)))
  else if op = 0x41 then pushV s bc.coinbaseAddress
  else if op = 0x42 then pushV s bc.timestamp
  else if op = 0x43 then pushV s bc.number
  else if op = 0x44 then pushV s bc.difficulty
  else if op = 0x45 then pushV s bc.gasLimit
  else if op = 0x46 then pushV s bc.chainId
  else if op = 0x50 then popHandler s
  else if op = 0x51 then mloadHandler s
  else if op = 0x52 then mstoreHandler s
  else if op = 0x53 then mstore8Handler s
  else if op = 0x54 then sloadHandler s
  else if op = 0x55 then sstoreHandler s
  else if op = 0x56 then jumpOpHandler code s
  else if op = 0x57 then jumpiOpHandler code s
  else if op = 0x58 then pushV s (s.pc - 1)
  else if op = 0x59 then pushV s s.memory.length
  else if op = 0x5A then (s, .error (.exec (.unsupportedOpcode op)))
  else if op = 0x5B then (s, .ok .running)
  else if op = 0xF0 then (s, .error (.exec (.unsupportedOpcode op)))
  else if op = 0xF1 then (s, .error (.exec (.unsupportedOpcode op)))
  else if op = 0xF2 then (s, .error (.exec (.unsupportedOpcode op)))
  else if op = 0xF3 then returnHandler s
  else if op = 0xF4 then (s, .error (.exec (.unsupportedOpcode op)))
  else if op = 0xF5 then (s, .error (.exec (.unsupportedOpcode op)))
  else if op = 0xFA then (s, .error (.exec (.unsupportedOpcode op)))
  else if op = 0xFD then revertHandler s
  else if op = 0xFF then (s, .ok .halted)
  else (s, .error (.exec .invalidOpcode))

/-! ## Dispatch loop (`evm.rs`) -/

/-- The outcome of the dispatch loop: a finished `ExecutionResult`, fuel
exhaustion (the Rust loop has no fuel and would keep running), or the
process abort of a failed `assert!`. -/
inductive RunOutcome where
  | out (r : ExecutionResult)
  | outOfFuel
  | panicked
deriving DecidableEq

/-- `evm.rs::run_next_step`: fetch the opcode at `pc`, increment `pc`,
execute.  The loop only calls this with `pc < code.length`, so the fetch
is in bounds. -/
def runNextStep (keccak : List Nat → Nat) (code : List Nat) (cc : CallContext)
    (bc : BlockContext) (s : VmState) : VmState × StepRes :=
  executeOpcode keccak (code.getD s.pc 0) code cc bc { s with pc := s.pc + 1 }

/-- The loop inside `evm.rs::run`: halt cleanly at `pc ≥ code.size`,
otherwise run a step and convert a `Halted` status or the first error into
the final `ExecutionResult`, keeping the return data accumulated so far. -/
def runLoop (keccak : List Nat → Nat) (code : List Nat) (cc : CallContext)
    (bc : BlockContext) : Nat → VmState → RunOutcome
  | 0, _ => .outOfFuel
  | fuel + 1, s =>
    if code.length ≤ s.pc then .out ⟨s.returnData, none⟩
    else
      match runNextStep keccak code cc bc s with
      | (s2, .ok .running) => runLoop keccak code cc bc fuel s2
      | (s2, .ok .halted) => .out ⟨s2.returnData, none⟩
      | (s2, .error (.exec e)) => .out ⟨s2.returnData, some e⟩
      | (_, .error .assertionFailed) => .panicked

/-- `evm.rs::run`: the loop started from `VmState::new`. -/
def run (keccak : List Nat → Nat) (code : List Nat) (cc : CallContext)
    (bc : BlockContext) (fuel : Nat) : RunOutcome :=
  runLoop keccak code cc bc fuel VmState.new

/-- A stand-in hash used to instantiate the `keccak` parameter in concrete
witnesses. -/
def zeroHash : List Nat → Nat := fun _ => 0

/-- The spec-side description of the linear walk (spec 4.2 / testable
property 3): `Walk code a b` holds when the walk that starts at position
`a` and advances by `instructionSize` lands on position `b`. -/
inductive Walk (code : List Nat) : Nat → Nat → Prop where
  | refl (pc : Nat) : Walk code pc pc
  | step {pc q : Nat} (h : pc < code.length)
      (hw : Walk code (pc + instructionSize (code.getD pc 0)) q) : Walk code pc q

/-- The claim's reading of `read_push_value` (testable property 4 of the
spec): the bytes physically present in `code[start..min(start+length,
size)]` extended on the RIGHT with zero bytes up to `length`, parsed
big-endian; zero when `start` is past the end. -/
def readPushValueRightPadded (code : List Nat) (start length : Nat) : Nat :=
  if code.length ≤ start then 0
  else
    let present := (code.drop start).take (min (start + length) code.length - start)
    beVal (present ++ List.replicate (length - present.length) 0)

/-- The VM state invariant of testable property 1 (plus the hard memory
cap): the stack never exceeds 1024 entries and the memory size is a
multiple of 32 not exceeding 128 MiB. -/
def VmInv (s : VmState) : Prop :=
  s.stack.length ≤ MAX_STACK_DEPTH ∧
    s.memory.length % 32 = 0 ∧ s.memory.length ≤ MEMORY_LIMIT

/-- What a single handler invocation guarantees: it preserves `VmInv` and
it never trips the `assert!` inside `Memory::write`. -/
def GoodStep (s : VmState) (r : VmState × StepRes) : Prop :=
  (VmInv s → VmInv r.1) ∧ r.2 ≠ .error .assertionFailed

/-! ## The jumpdest pre-scan (claim C2) -/

theorem one_le_instructionSize (op : Nat) : 1 ≤ instructionSize op := by
  unfold instructionSize; split <;> omega

theorem walk_cases {code : List Nat} {pc x : Nat} (h : Walk code pc x) :
    x = pc ∨ (pc < code.length ∧ Walk code (pc + instructionSize (code.getD pc 0)) x) := by
  cases h with
  | refl _ => exact Or.inl rfl
  | step h hw => exact Or.inr ⟨h, hw⟩

theorem scanJumpdests_succ (code : List Nat) (fuel pc : Nat) :
    scanJumpdests code (fuel + 1) pc =
      if pc < code.length then
        if code.getD pc 0 = 0x5B then
          pc :: scanJumpdests code fuel (pc + instructionSize (code.getD pc 0))
        else scanJumpdests code fuel (pc + instructionSize (code.getD pc 0))
      else [] := rfl

theorem scanJumpdests_mem_iff (code : List Nat) :
    ∀ fuel pc x : Nat, code.length - pc ≤ fuel →
      (x ∈ scanJumpdests code fuel pc ↔
        Walk code pc x ∧ x < code.length ∧ code.getD x 0 = 0x5B) := by
  intro fuel
  induction fuel with
  | zero =>
    intro pc x hf
    simp only [scanJumpdests, List.not_mem_nil, false_iff]
    rintro ⟨hw, hx, _⟩
    rcases walk_cases hw with rfl | ⟨h, _⟩ <;> omega
  | succ fuel ih =>
    intro pc x hf
    rw [scanJumpdests_succ]
    by_cases hpc : pc < code.length
    · rw [if_pos hpc]
      have hsz := one_le_instructionSize (code.getD pc 0)
      have ihx := ih (pc + instructionSize (code.getD pc 0)) x (by omega)
      by_cases hop : code.getD pc 0 = 0x5B
      · rw [if_pos hop]
        simp only [List.mem_cons, ihx]
        constructor
        · rintro (rfl | ⟨hw, hx2, hb⟩)
          · exact ⟨Walk.refl x, hpc, hop⟩
          · exact ⟨Walk.step hpc hw, hx2, hb⟩
        · rintro ⟨hw, hx2, hb⟩
          rcases walk_cases hw with rfl | ⟨_, hw2⟩
          · exact Or.inl rfl
          · exact Or.inr ⟨hw2, hx2, hb⟩
      · rw [if_neg hop, ihx]
        constructor
        · rintro ⟨hw, hx2, hb⟩
          exact ⟨Walk.step hpc hw, hx2, hb⟩
        · rintro ⟨hw, hx2, hb⟩
          rcases walk_cases hw with rfl | ⟨_, hw2⟩
          · exact absurd hb hop
          · exact ⟨hw2, hx2, hb⟩
    · rw [if_neg hpc]
      simp only [List.not_mem_nil, false_iff]
      rintro ⟨hw, hx, _⟩
      rcases walk_cases hw with rfl | ⟨h, _⟩ <;> omega

/-- C2: the precomputed jumpdests set of the bytecode view contains
exactly the positions `pc` on which the linear walk from index 0
(advancing by `n + 1` over `PUSHn` and by 1 otherwise) lands and whose
byte is `JUMPDEST (0x5B)`; in particular a `0x5B` byte lying inside a PUSH
immediate, which the walk skips, is not in the set. -/
theorem jumpdests_characterization (code : List Nat) (pc : Nat) :
    pc ∈ jumpdests code ↔
      Walk code 0 pc ∧ pc < code.length ∧ code.getD pc 0 = 0x5B :=
  scanJumpdests_mem_iff code code.length 0 pc (by omega)

/-! ## `read_push_value` (claim C3) -/

theorem beVal_replicate_zero_append (k : Nat) (l : List Nat) :
    beVal (List.replicate k 0 ++ l) = beVal l := by
  unfold beVal
  rw [List.foldl_append]
  congr 1
  induction k with
  | zero => rfl
  | succ k ih => rw [List.replicate_succ, List.foldl_cons]; simpa using ih

/-- C3 counterexample: on the one-byte code `[0x01]`, reading a PUSH2
immediate at 0, `read_push_value` parses the single present byte as `1`,
whereas the claim's right-zero-extension would give `0x0100 = 256`. -/
theorem readPushValue_ne_rightPadded :
    readPushValue [1] 0 2 = 1 ∧ readPushValueRightPadded [1] 0 2 = 256 ∧
      readPushValue [1] 0 2 ≠ readPushValueRightPadded [1] 0 2 :=
  ⟨rfl, rfl, by decide⟩

/-- C3 (amended): `read_push_value(start, n)` returns the big-endian value
of the bytes physically present in `code[start..min(start+n, size)]` —
equivalently, that byte string extended on the LEFT with zero bytes up to
length `n` — and `0` when `start ≥ size` (the present bytes are the high
end of nothing: an immediate truncated by the end of the code is read as
if its missing bytes were its high bytes being absent, not as low zero
bytes). -/
theorem readPushValue_eq_leftPadded (code : List Nat) (start n : Nat) :
    readPushValue code start n =
      beVal (List.replicate
          (n - ((code.drop start).take (min (start + n) code.length - start)).length) 0
        ++ (code.drop start).take (min (start + n) code.length - start)) := by
  unfold readPushValue
  rw [beVal_replicate_zero_append]
  split
  · rename_i h
    simp [List.drop_eq_nil_of_le h, beVal]
  · rfl

/-! ## The `XOR` opcode (claim C1) -/

/-- C1 (code bug): the `Opcode::XOR` arm computes `u0 | u1` —
bitwise OR — so executing byte `0x18` on operands `1` and `1` pushes `1`
and keeps running, while the bitwise exclusive-or the claim (and the spec)
requires is `Nat.xor 1 1 = 0`. -/
theorem xor_opcode_computes_or :
    (executeOpcode zeroHash 0x18 [] ccDefault bcDefault ⟨0, [1, 1], [], [], []⟩).1.stack
        = [1] ∧
      (executeOpcode zeroHash 0x18 [] ccDefault bcDefault ⟨0, [1, 1], [], [], []⟩).2
        = .ok .running ∧
      Nat.xor 1 1 = 0 :=
  ⟨rfl, rfl, rfl⟩

/-! ## The step invariants (claims C4 and C9) -/

theorem roundedLength_ge (x : Nat) : x ≤ roundedLength x := by
  unfold roundedLength; split <;> omega

theorem roundedLength_mod32 (x : Nat) : roundedLength x % 32 = 0 := by
  unfold roundedLength; split <;> omega

theorem resize_ok_facts {m m2 : List Nat} {x : Nat}
    (h : resizeIfNecessary m x = .ok m2) :
    x ≤ m2.length ∧ (m.length % 32 = 0 → m2.length % 32 = 0) ∧
      (m.length ≤ MEMORY_LIMIT → m2.length ≤ MEMORY_LIMIT) := by
  have hge := roundedLength_ge x
  have hmod := roundedLength_mod32 x
  unfold resizeIfNecessary at h
  split at h
  · rename_i hle
    injection h with h2
    subst h2
    exact ⟨by omega, fun a => a, fun a => a⟩
  · split at h
    · simp at h
    · rename_i hle hlim
      injection h with h2
      subst h2
      have hlen : (m ++ List.replicate (roundedLength x - m.length) 0).length
          = roundedLength x := by
        simp [List.length_append, List.length_replicate]
        omega
      exact ⟨by omega, fun _ => by omega, fun _ => by omega⟩

theorem memRead_ok_facts {m : List Nat} {o l : Nat} {m2 data : List Nat}
    (h : memRead m o l = .ok (m2, data)) :
    o + l ≤ m2.length ∧ (m.length % 32 = 0 → m2.length % 32 = 0) ∧
      (m.length ≤ MEMORY_LIMIT → m2.length ≤ MEMORY_LIMIT) := by
  unfold memRead at h
  split at h
  · simp at h
  · rename_i mr heq
    injection h with h2
    cases h2
    exact resize_ok_facts heq

theorem memWrite_ok_facts {m : List Nat} {o l : Nat} {d m2 : List Nat}
    (h : memWrite m o l d = .ok m2) :
    (m.length % 32 = 0 → m2.length % 32 = 0) ∧
      (m.length ≤ MEMORY_LIMIT → m2.length ≤ MEMORY_LIMIT) := by
  unfold memWrite at h
  split at h
  · rename_i hd
    split at h
    · simp at h
    · rename_i mr heq
      injection h with h2
      subst h2
      obtain ⟨hge, hmod, hlim⟩ := resize_ok_facts heq
      have hlen : (mr.take o ++ d ++ mr.drop (o + d.length)).length = mr.length := by
        simp [List.length_append, List.length_take, List.length_drop]
        omega
      exact ⟨fun hm => by have := hmod hm; omega, fun hm => by have := hlim hm; omega⟩
  · simp at h

theorem memWrite_ne_assert {m : List Nat} {o l : Nat} {d : List Nat}
    (hd : d.length ≤ l) : memWrite m o l d ≠ .error .assertionFailed := by
  unfold memWrite
  rw [if_pos hd]
  split <;> simp

theorem natToBeBytes_length (n v : Nat) : (natToBeBytes n v).length = n := by
  induction n generalizing v with
  | zero => rfl
  | succ n ih => simp [natToBeBytes, ih]

theorem getSlice_length_le (d : List Nat) (start l : Nat) :
    (getSlice d start l).length ≤ l := by
  unfold getSlice
  split
  · simp
  · simp [List.length_take, List.length_drop]
    omega

theorem goodStep_same (s : VmState) (r : StepRes)
    (h : r ≠ .error .assertionFailed) : GoodStep s (s, r) := ⟨id, h⟩

theorem inv_stack_drop {s : VmState} (h : VmInv s) {st : List Nat}
    (hl : st.length ≤ s.stack.length) : VmInv { s with stack := st } :=
  ⟨le_trans hl h.1, h.2.1, h.2.2⟩

theorem pushV_inv {t : VmState} (v : Nat) (h : VmInv t) : VmInv (pushV t v).1 := by
  unfold pushV
  split
  · exact h
  · rename_i hne
    refine ⟨?_, h.2.1, h.2.2⟩
    show (v :: t.stack).length ≤ MAX_STACK_DEPTH
    have h1 := h.1
    simp only [List.length_cons]
    omega

theorem pushV_ne_assert (t : VmState) (v : Nat) :
    (pushV t v).2 ≠ .error .assertionFailed := by
  unfold pushV; split <;> simp

theorem goodStep_pushVArm (s : VmState) (v : Nat) : GoodStep s (pushV s v) :=
  ⟨fun hs => pushV_inv _ hs, pushV_ne_assert _ _⟩

theorem goodStep_opBin (f : Nat → Nat → Nat) (s : VmState) : GoodStep s (opBin f s) := by
  unfold opBin
  split
  · rename_i a b rest heq
    exact ⟨fun hs => pushV_inv _ (inv_stack_drop hs (by rw [heq]; simp; omega)),
      pushV_ne_assert _ _⟩
  · rename_i heq
    exact ⟨fun hs => inv_stack_drop hs (by simp), by simp⟩
  · exact ⟨id, by simp⟩

theorem goodStep_opUn (f : Nat → Nat) (s : VmState) : GoodStep s (opUn f s) := by
  unfold opUn
  split
  · rename_i a rest heq
    exact ⟨fun hs => pushV_inv _ (inv_stack_drop hs (by rw [heq]; simp)),
      pushV_ne_assert _ _⟩
  · exact ⟨id, by simp⟩

theorem goodStep_opTer (f : Nat → Nat → Nat → Nat) (s : VmState) :
    GoodStep s (opTer f s) := by
  unfold opTer
  split
  · rename_i a b c rest heq
    exact ⟨fun hs => pushV_inv _ (inv_stack_drop hs (by rw [heq]; simp; omega)),
      pushV_ne_assert _ _⟩
  · exact ⟨fun hs => inv_stack_drop hs (by simp), by simp⟩
  · exact ⟨fun hs => inv_stack_drop hs (by simp), by simp⟩
  · exact ⟨id, by simp⟩

theorem goodStep_pushHandler (code : List Nat) (n : Nat) (s : VmState) :
    GoodStep s (pushHandler code n s) := by
  unfold pushHandler
  split
  · exact ⟨id, by simp⟩
  · rename_i hne
    refine ⟨fun hs => ⟨?_, hs.2.1, hs.2.2⟩, by simp⟩
    show (readPushValue code s.pc n :: s.stack).length ≤ MAX_STACK_DEPTH
    have h1 := hs.1
    simp only [List.length_cons]
    omega

theorem goodStep_dupHandler (n : Nat) (s : VmState) : GoodStep s (dupHandler n s) := by
  unfold dupHandler
  split
  · exact ⟨id, by simp⟩
  · exact ⟨fun hs => pushV_inv _ hs, pushV_ne_assert _ _⟩

theorem goodStep_swapHandler (n : Nat) (s : VmState) : GoodStep s (swapHandler n s) := by
  unfold swapHandler
  split
  · exact ⟨id, by simp⟩
  · refine ⟨fun hs => ⟨?_, hs.2.1, hs.2.2⟩, by simp⟩
    show ((s.stack.set 0 (s.stack.getD n 0)).set n (s.stack.getD 0 0)).length
        ≤ MAX_STACK_DEPTH
    simp only [List.length_set]
    exact hs.1

theorem goodStep_popHandler (s : VmState) : GoodStep s (popHandler s) := by
  unfold popHandler
  split
  · rename_i a rest heq
    exact ⟨fun hs => inv_stack_drop hs (by rw [heq]; simp), by simp⟩
  · exact ⟨id, by simp⟩

theorem goodStep_sloadHandler (s : VmState) : GoodStep s (sloadHandler s) := by
  unfold sloadHandler
  split
  · rename_i a rest heq
    exact ⟨fun hs => pushV_inv _ (inv_stack_drop hs (by rw [heq]; simp)),
      pushV_ne_assert _ _⟩
  · exact ⟨id, by simp⟩

theorem goodStep_sstoreHandler (s : VmState) : GoodStep s (sstoreHandler s) := by
  unfold sstoreHandler
  split
  · rename_i a b rest heq
    refine ⟨fun hs => ⟨?_, hs.2.1, hs.2.2⟩, by simp⟩
    show rest.length ≤ MAX_STACK_DEPTH
    have h1 := hs.1
    rw [heq] at h1
    simp only [List.length_cons] at h1
    omega
  · exact ⟨fun hs => inv_stack_drop hs (by simp), by simp⟩
  · exact ⟨id, by simp⟩

theorem jumpTo_inv {code : List Nat} {t : VmState} {dest : Nat} (h : VmInv t) :
    VmInv (jumpTo code t dest).1 := by
  unfold jumpTo
  split
  · exact h
  · split
    · exact ⟨h.1, h.2.1, h.2.2⟩
    · exact h

theorem jumpTo_ne_assert (code : List Nat) (t : VmState) (dest : Nat) :
    (jumpTo code t dest).2 ≠ .error .assertionFailed := by
  unfold jumpTo
  split
  · simp
  · split <;> simp

theorem goodStep_jumpOpHandler (code : List Nat) (s : VmState) :
    GoodStep s (jumpOpHandler code s) := by
  unfold jumpOpHandler
  split
  · rename_i a rest heq
    exact ⟨fun hs => jumpTo_inv (inv_stack_drop hs (by rw [heq]; simp)),
      jumpTo_ne_assert _ _ _⟩
  · exact ⟨id, by simp⟩

theorem goodStep_jumpiOpHandler (code : List Nat) (s : VmState) :
    GoodStep s (jumpiOpHandler code s) := by
  unfold jumpiOpHandler
  split
  · rename_i a b rest heq
    split
    · exact ⟨fun hs => jumpTo_inv (inv_stack_drop hs (by rw [heq]; simp; omega)),
        jumpTo_ne_assert _ _ _⟩
    · exact ⟨fun hs => inv_stack_drop hs (by rw [heq]; simp; omega), by simp⟩
  · exact ⟨fun hs => inv_stack_drop hs (by simp), by simp⟩
  · exact ⟨id, by simp⟩

theorem goodStep_mloadHandler (s : VmState) : GoodStep s (mloadHandler s) := by
  simp only [mloadHandler]
  split
  · rename_i a rest heq
    have hdrop : VmInv s → VmInv { s with stack := rest } :=
      fun hs => inv_stack_drop hs (by rw [heq]; simp)
    split
    · exact ⟨hdrop, by simp⟩
    · split
      · exact ⟨hdrop, by simp⟩
      · rename_i mr data heq2
        obtain ⟨_, hmod, hlim⟩ := memRead_ok_facts heq2
        refine ⟨fun hs => pushV_inv _ ?_, pushV_ne_assert _ _⟩
        have h1 := hdrop hs
        exact ⟨h1.1, hmod h1.2.1, hlim h1.2.2⟩
  · exact ⟨id, by simp⟩

theorem goodStep_mstoreHandler (s : VmState) : GoodStep s (mstoreHandler s) := by
  simp only [mstoreHandler]
  split
  · rename_i a b rest heq
    have hdrop : VmInv s → VmInv { s with stack := rest } :=
      fun hs => inv_stack_drop hs (by rw [heq]; simp; omega)
    split
    · exact ⟨hdrop, by simp⟩
    · split
      · rename_i e heq2
        refine ⟨hdrop, ?_⟩
        intro hc
        simp only [Except.error.injEq] at hc
        subst hc
        exact memWrite_ne_assert (by simp [natToBeBytes_length]) heq2
      · rename_i m2 heq2
        obtain ⟨hmod, hlim⟩ := memWrite_ok_facts heq2
        refine ⟨fun hs => ?_, by simp⟩
        have h1 := hdrop hs
        exact ⟨h1.1, hmod h1.2.1, hlim h1.2.2⟩
  · exact ⟨fun hs => inv_stack_drop hs (by simp), by simp⟩
  · exact ⟨id, by simp⟩

theorem goodStep_mstore8Handler (s : VmState) : GoodStep s (mstore8Handler s) := by
  simp only [mstore8Handler]
  split
  · rename_i a b rest heq
    have hdrop : VmInv s → VmInv { s with stack := rest } :=
      fun hs => inv_stack_drop hs (by rw [heq]; simp; omega)
    split
    · exact ⟨hdrop, by simp⟩
    · split
      · rename_i e heq2
        refine ⟨hdrop, ?_⟩
        intro hc
        simp only [Except.error.injEq] at hc
        subst hc
        exact memWrite_ne_assert (by simp) heq2
      · rename_i m2 heq2
        obtain ⟨hmod, hlim⟩ := memWrite_ok_facts heq2
        refine ⟨fun hs => ?_, by simp⟩
        have h1 := hdrop hs
        exact ⟨h1.1, hmod h1.2.1, hlim h1.2.2⟩
  · exact ⟨fun hs => inv_stack_drop hs (by simp), by simp⟩
  · exact ⟨id, by simp⟩

theorem goodStep_dataCopyHandler (src : List Nat) (s : VmState) :
    GoodStep s (dataCopyHandler src s) := by
  simp only [dataCopyHandler]
  split
  · rename_i a b c rest heq
    have hdrop : VmInv s → VmInv { s with stack := rest } :=
      fun hs => inv_stack_drop hs (by rw [heq]; simp; omega)
    split
    · exact ⟨hdrop, by simp⟩
    · split
      · split
        · rename_i e heq2
          refine ⟨hdrop, ?_⟩
          intro hc
          simp only [Except.error.injEq] at hc
          subst hc
          exact memWrite_ne_assert (by simp) heq2
        · rename_i m2 heq2
          obtain ⟨hmod, hlim⟩ := memWrite_ok_facts heq2
          refine ⟨fun hs => ?_, by simp⟩
          have h1 := hdrop hs
          exact ⟨h1.1, hmod h1.2.1, hlim h1.2.2⟩
      · split
        · exact ⟨hdrop, by simp⟩
        · split
          · rename_i e heq2
            refine ⟨hdrop, ?_⟩
            intro hc
            simp only [Except.error.injEq] at hc
            subst hc
            exact memWrite_ne_assert (getSlice_length_le _ _ _) heq2
          · rename_i m2 heq2
            obtain ⟨hmod, hlim⟩ := memWrite_ok_facts heq2
            refine ⟨fun hs => ?_, by simp⟩
            have h1 := hdrop hs
            exact ⟨h1.1, hmod h1.2.1, hlim h1.2.2⟩
  · exact ⟨fun hs => inv_stack_drop hs (by simp), by simp⟩
  · exact ⟨fun hs => inv_stack_drop hs (by simp), by simp⟩
  · exact ⟨id, by simp⟩

theorem goodStep_sha3Handler (keccak : List Nat → Nat) (s : VmState) :
    GoodStep s (sha3Handler keccak s) := by
  simp only [sha3Handler]
  split
  · rename_i a b rest heq
    have hdrop : VmInv s → VmInv { s with stack := rest } :=
      fun hs => inv_stack_drop hs (by rw [heq]; simp; omega)
    split
    · exact ⟨hdrop, by simp⟩
    · split
      · split
        · exact ⟨hdrop, by simp⟩
        · exact ⟨fun hs => pushV_inv _ (hdrop hs), pushV_ne_assert _ _⟩
      · split
        · exact ⟨hdrop, by simp⟩
        · rename_i mr data heq2
          obtain ⟨_, hmod, hlim⟩ := memRead_ok_facts heq2
          refine ⟨fun hs => pushV_inv _ ?_, pushV_ne_assert _ _⟩
          have h1 := hdrop hs
          exact ⟨h1.1, hmod h1.2.1, hlim h1.2.2⟩
  · exact ⟨fun hs => inv_stack_drop hs (by simp), by simp⟩
  · exact ⟨id, by simp⟩

theorem goodStep_returnHandler (s : VmState) : GoodStep s (returnHandler s) := by
  simp only [returnHandler]
  split
  · rename_i a b rest heq
    have hdrop : VmInv s → VmInv { s with stack := rest } :=
      fun hs => inv_stack_drop hs (by rw [heq]; simp; omega)
    split
    · exact ⟨hdrop, by simp⟩
    · split
      · exact ⟨hdrop, by simp⟩
      · rename_i mr data heq2
        obtain ⟨_, hmod, hlim⟩ := memRead_ok_facts heq2
        refine ⟨fun hs => ?_, by simp⟩
        have h1 := hdrop hs
        exact ⟨h1.1, hmod h1.2.1, hlim h1.2.2⟩
  · exact ⟨fun hs => inv_stack_drop hs (by simp), by simp⟩
  · exact ⟨id, by simp⟩

theorem goodStep_revertHandler (s : VmState) : GoodStep s (revertHandler s) := by
  simp only [revertHandler]
  split
  · rename_i a b rest heq
    have hdrop : VmInv s → VmInv { s with stack := rest } :=
      fun hs => inv_stack_drop hs (by rw [heq]; simp; omega)
    split
    · exact ⟨hdrop, by simp⟩
    · split
      · exact ⟨hdrop, by simp⟩
      · rename_i mr data heq2
        obtain ⟨_, hmod, hlim⟩ := memRead_ok_facts heq2
        refine ⟨fun hs => ?_, by simp⟩
        have h1 := hdrop hs
        exact ⟨h1.1, hmod h1.2.1, hlim h1.2.2⟩
  · exact ⟨fun hs => inv_stack_drop hs (by simp), by simp⟩
  · exact ⟨id, by simp⟩

theorem executeOpcode_goodStep (keccak : List Nat → Nat) (op : Nat) (code : List Nat)
    (cc : CallContext) (bc : BlockContext) (s : VmState) :
    GoodStep s (executeOpcode keccak op code cc bc s) := by
  delta executeOpcode
  by_cases h0 : 0x60 ≤ op ∧ op ≤ 0x7F
  · rw [if_pos h0]; exact goodStep_pushHandler _ _ _
  rw [if_neg h0]
  by_cases h1 : 0x80 ≤ op ∧ op ≤ 0x8F
  · rw [if_pos h1]; exact goodStep_dupHandler _ _
  rw [if_neg h1]
  by_cases h2 : 0x90 ≤ op ∧ op ≤ 0x9F
  · rw [if_pos h2]; exact goodStep_swapHandler _ _
  rw [if_neg h2]
  by_cases h3 : 0xA0 ≤ op ∧ op ≤ 0xA4
  · rw [if_pos h3]; exact goodStep_same _ _ (by simp)
  rw [if_neg h3]
  by_cases h4 : op = 0x00
  · rw [if_pos h4]; exact goodStep_same _ _ (by simp)
  rw [if_neg h4]
  by_cases h5 : op = 0x01
  · rw [if_pos h5]; exact goodStep_opBin _ _
  rw [if_neg h5]
  by_cases h6 : op = 0x02
  · rw [if_pos h6]; exact goodStep_opBin _ _
  rw [if_neg h6]
  by_cases h7 : op = 0x03
  · rw [if_pos h7]; exact goodStep_opBin _ _
  rw [if_neg h7]
  by_cases h8 : op = 0x04
  · rw [if_pos h8]; exact goodStep_opBin _ _
  rw [if_neg h8]
  by_cases h9 : op = 0x05
  · rw [if_pos h9]; exact goodStep_opBin _ _
  rw [if_neg h9]
  by_cases h10 : op = 0x06
  · rw [if_pos h10]; exact goodStep_opBin _ _
  rw [if_neg h10]
  by_cases h11 : op = 0x07
  · rw [if_pos h11]; exact goodStep_opBin _ _
  rw [if_neg h11]
  by_cases h12 : op = 0x08
  · rw [if_pos h12]; exact goodStep_opTer _ _
  rw [if_neg h12]
  by_cases h13 : op = 0x09
  · rw [if_pos h13]; exact goodStep_opTer _ _
  rw [if_neg h13]
  by_cases h14 : op = 0x0A
  · rw [if_pos h14]; exact goodStep_opBin _ _
  rw [if_neg h14]
  by_cases h15 : op = 0x0B
  · rw [if_pos h15]; exact goodStep_opBin _ _
  rw [if_neg h15]
  by_cases h16 : op = 0x10
  · rw [if_pos h16]; exact goodStep_opBin _ _
  rw [if_neg h16]
  by_cases h17 : op = 0x11
  · rw [if_pos h17]; exact goodStep_opBin _ _
  rw [if_neg h17]
  by_cases h18 : op = 0x12
  · rw [if_pos h18]; exact goodStep_opBin _ _
  rw [if_neg h18]
  by_cases h19 : op = 0x13
  · rw [if_pos h19]; exact goodStep_opBin _ _
  rw [if_neg h19]
  by_cases h20 : op = 0x14
  · rw [if_pos h20]; exact goodStep_opBin _ _
  rw [if_neg h20]
  by_cases h21 : op = 0x15
  · rw [if_pos h21]; exact goodStep_opUn _ _
  rw [if_neg h21]
  by_cases h22 : op = 0x16
  · rw [if_pos h22]; exact goodStep_opBin _ _
  rw [if_neg h22]
  by_cases h23 : op = 0x17
  · rw [if_pos h23]; exact goodStep_opBin _ _
  rw [if_neg h23]
  by_cases h24 : op = 0x18
  · rw [if_pos h24]; exact goodStep_opBin _ _
  rw [if_neg h24]
  by_cases h25 : op = 0x19
  · rw [if_pos h25]; exact goodStep_opUn _ _
  rw [if_neg h25]
  by_cases h26 : op = 0x1A
  · rw [if_pos h26]; exact goodStep_opBin _ _
  rw [if_neg h26]
  by_cases h27 : op = 0x1B
  · rw [if_pos h27]; exact goodStep_opBin _ _
  rw [if_neg h27]
  by_cases h28 : op = 0x1C
  · rw [if_pos h28]; exact goodStep_opBin _ _
  rw [if_neg h28]
  by_cases h29 : op = 0x1D
  · rw [if_pos h29]; exact goodStep_opBin _ _
  rw [if_neg h29]
  by_cases h30 : op = 0x20
  · rw [if_pos h30]; exact goodStep_sha3Handler _ _
  rw [if_neg h30]
  by_cases h31 : op = 0x30
  · rw [if_pos h31]; exact goodStep_pushVArm _ _
  rw [if_neg h31]
  by_cases h32 : op = 0x31
  · rw [if_pos h32]; exact goodStep_same _ _ (by simp)
  rw [if_neg h32]
  by_cases h33 : op = 0x32
  · rw [if_pos h33]; exact goodStep_pushVArm _ _
  rw [if_neg h33]
  by_cases h34 : op = 0x33
  · rw [if_pos h34]; exact goodStep_pushVArm _ _
  rw [if_neg h34]
  by_cases h35 : op = 0x34
  · rw [if_pos h35]; exact goodStep_pushVArm _ _
  rw [if_neg h35]
  by_cases h36 : op = 0x35
  · rw [if_pos h36]; exact goodStep_opUn _ _
  rw [if_neg h36]
  by_cases h37 : op = 0x36
  · rw [if_pos h37]; exact goodStep_pushVArm _ _
  rw [if_neg h37]
  by_cases h38 : op = 0x37
  · rw [if_pos h38]; exact goodStep_dataCopyHandler _ _
  rw [if_neg h38]
  by_cases h39 : op = 0x38
  · rw [if_pos h39]; exact goodStep_pushVArm _ _
  rw [if_neg h39]
  by_cases h40 : op = 0x39
  · rw [if_pos h40]; exact goodStep_dataCopyHandler _ _
  rw [if_neg h40]
  by_cases h41 : op = 0x3A
  · rw [if_pos h41]; exact goodStep_pushVArm _ _
  rw [if_neg h41]
  by_cases h42 : op = 0x3B
  · rw [if_pos h42]; exact goodStep_same _ _ (by simp)
  rw [if_neg h42]
  by_cases h43 : op = 0x3C
  · rw [if_pos h43]; exact goodStep_same _ _ (by simp)
  rw [if_neg h43]
  by_cases h44 : op = 0x3D
  · rw [if_pos h44]; exact goodStep_pushVArm _ _
  rw [if_neg h44]
  by_cases h45 : op = 0x3E
  · rw [if_pos h45]; exact goodStep_dataCopyHandler _ _
  rw [if_neg h45]
  by_cases h46 : op = 0x3F
  · rw [if_pos h46]; exact goodStep_same _ _ (by simp)
  rw [if_neg h46]
  by_cases h47 : op = 0x40
  · rw [if_pos h47]; exact goodStep_same _ _ (by simp)
  rw [if_neg h47]
  by_cases h48 : op = 0x41
  · rw [if_pos h48]; exact goodStep_pushVArm _ _
  rw [if_neg h48]
  by_cases h49 : op = 0x42
  · rw [if_pos h49]; exact goodStep_pushVArm _ _
  rw [if_neg h49]
  by_cases h50 : op = 0x43
  · rw [if_pos h50]; exact goodStep_pushVArm _ _
  rw [if_neg h50]
  by_cases h51 : op = 0x44
  · rw [if_pos h51]; exact goodStep_pushVArm _ _
  rw [if_neg h51]
  by_cases h52 : op = 0x45
  · rw [if_pos h52]; exact goodStep_pushVArm _ _
  rw [if_neg h52]
  by_cases h53 : op = 0x46
  · rw [if_pos h53]; exact goodStep_pushVArm _ _
  rw [if_neg h53]
  by_cases h54 : op = 0x50
  · rw [if_pos h54]; exact goodStep_popHandler _
  rw [if_neg h54]
  by_cases h55 : op = 0x51
  · rw [if_pos h55]; exact goodStep_mloadHandler _
  rw [if_neg h55]
  by_cases h56 : op = 0x52
  · rw [if_pos h56]; exact goodStep_mstoreHandler _
  rw [if_neg h56]
  by_cases h57 : op = 0x53
  · rw [if_pos h57]; exact goodStep_mstore8Handler _
  rw [if_neg h57]
  by_cases h58 : op = 0x54
  · rw [if_pos h58]; exact goodStep_sloadHandler _
  rw [if_neg h58]
  by_cases h59 : op = 0x55
  · rw [if_pos h59]; exact goodStep_sstoreHandler _
  rw [if_neg h59]
  by_cases h60 : op = 0x56
  · rw [if_pos h60]; exact goodStep_jumpOpHandler _ _
  rw [if_neg h60]
  by_cases h61 : op = 0x57
  · rw [if_pos h61]; exact goodStep_jumpiOpHandler _ _
  rw [if_neg h61]
  by_cases h62 : op = 0x58
  · rw [if_pos h62]; exact goodStep_pushVArm _ _
  rw [if_neg h62]
  by_cases h63 : op = 0x59
  · rw [if_pos h63]; exact goodStep_pushVArm _ _
  rw [if_neg h63]
  by_cases h64 : op = 0x5A
  · rw [if_pos h64]; exact goodStep_same _ _ (by simp)
  rw [if_neg h64]
  by_cases h65 : op = 0x5B
  · rw [if_pos h65]; exact goodStep_same _ _ (by simp)
  rw [if_neg h65]
  by_cases h66 : op = 0xF0
  · rw [if_pos h66]; exact goodStep_same _ _ (by simp)
  rw [if_neg h66]
  by_cases h67 : op = 0xF1
  · rw [if_pos h67]; exact goodStep_same _ _ (by simp)
  rw [if_neg h67]
  by_cases h68 : op = 0xF2
  · rw [if_pos h68]; exact goodStep_same _ _ (by simp)
  rw [if_neg h68]
  by_cases h69 : op = 0xF3
  · rw [if_pos h69]; exact goodStep_returnHandler _
  rw [if_neg h69]
  by_cases h70 : op = 0xF4
  · rw [if_pos h70]; exact goodStep_same _ _ (by simp)
  rw [if_neg h70]
  by_cases h71 : op = 0xF5
  · rw [if_pos h71]; exact goodStep_same _ _ (by simp)
  rw [if_neg h71]
  by_cases h72 : op = 0xFA
  · rw [if_pos h72]; exact goodStep_same _ _ (by simp)
  rw [if_neg h72]
  by_cases h73 : op = 0xFD
  · rw [if_pos h73]; exact goodStep_revertHandler _
  rw [if_neg h73]
  by_cases h74 : op = 0xFF
  · rw [if_pos h74]; exact goodStep_same _ _ (by simp)
  rw [if_neg h74]
  exact goodStep_same _ _ (by simp)

theorem runLoop_ne_panicked (keccak : List Nat → Nat) (code : List Nat)
    (cc : CallContext) (bc : BlockContext) :
    ∀ fuel s, runLoop keccak code cc bc fuel s ≠ .panicked := by
  intro fuel
  induction fuel with
  | zero => intro s; simp [runLoop]
  | succ fuel ih =>
    intro s
    simp only [runLoop]
    split
    · simp
    · split
      · exact ih _
      · simp
      · simp
      · rename_i s2 heq
        exact absurd (congrArg Prod.snd heq)
          (executeOpcode_goodStep keccak (code.getD s.pc 0) code cc bc
            { s with pc := s.pc + 1 }).2

/-- C4: after every step of the dispatch loop the VM state satisfies
`stack.len ≤ 1024` and `memory.size % 32 == 0` with the memory size never
exceeding 128 MiB (`VmInv`); the initial state has memory size 0, and the
invariant is preserved by every `run_next_step`. -/
theorem step_preserves_vm_invariants (keccak : List Nat → Nat) (code : List Nat)
    (cc : CallContext) (bc : BlockContext) :
    (VmState.new.memory.length = 0 ∧ VmInv VmState.new) ∧
      ∀ s : VmState, VmInv s → VmInv (runNextStep keccak code cc bc s).1 := by
  refine ⟨⟨rfl, by decide, by decide, by decide⟩, fun s hs => ?_⟩
  exact (executeOpcode_goodStep keccak (code.getD s.pc 0) code cc bc
    { s with pc := s.pc + 1 }).1 ⟨hs.1, hs.2.1, hs.2.2⟩

/-- Witness for C4: one concrete step (an `ADD` over a pushed stack) from
the initial state keeps the invariant. -/
theorem step_preserves_vm_invariants_witness :
    VmInv (runNextStep zeroHash [0x60, 0x07] ccDefault bcDefault VmState.new).1 :=
  (step_preserves_vm_invariants zeroHash [0x60, 0x07] ccDefault bcDefault).2
    VmState.new ⟨by decide, by decide, by decide⟩

/-- C9: every call of `Memory::write` made during execution — `MSTORE`
(32 bytes for a `length` of 32), `MSTORE8` (1 byte for a `length` of 1)
and the shared data-copy handler (a `get_slice` result of length at most
`length`, or an empty slice) — passes data no longer than its `length`
argument, so the `assert!(data_len <= length)` inside `write` never
fails: no handler result and no run of the dispatch loop ever reaches the
assertion-failure outcome. -/
theorem memory_write_assert_unreachable (keccak : List Nat → Nat) (code : List Nat)
    (cc : CallContext) (bc : BlockContext) :
    (∀ (op : Nat) (s : VmState),
        (executeOpcode keccak op code cc bc s).2 ≠ .error .assertionFailed) ∧
      ∀ (fuel : Nat) (s : VmState), runLoop keccak code cc bc fuel s ≠ .panicked :=
  ⟨fun op s => (executeOpcode_goodStep keccak op code cc bc s).2,
   runLoop_ne_panicked keccak code cc bc⟩

/-! ## `JUMP` (claim C5) -/

theorem isJumpdest_iff (code : List Nat) (pc : Nat) :
    isJumpdest code pc = true ↔ pc < code.length ∧ pc ∈ jumpdests code := by
  unfold isJumpdest
  split
  · rename_i h
    simp only [Bool.false_eq_true, false_iff]
    rintro ⟨h1, _⟩
    omega
  · rename_i h
    constructor
    · intro hc
      exact ⟨by omega, by simpa using hc⟩
    · rintro ⟨_, hm⟩
      simpa using hm

/-- C5: for a destination `dest` popped by `JUMP` (byte `0x56`), the step
fails with `InvalidJump` exactly when `dest ≥ code.size` or `dest` is not
in the precomputed jumpdests set; otherwise it succeeds with `pc = dest`.
In both cases only the popped destination leaves the stack, and memory,
storage and return data are untouched. -/
theorem jump_semantics (keccak : List Nat → Nat) (code : List Nat) (cc : CallContext)
    (bc : BlockContext) (s : VmState) (dest : Nat) (rest : List Nat)
    (hs : s.stack = dest :: rest) :
    (executeOpcode keccak 0x56 code cc bc s).1.stack = rest ∧
      (executeOpcode keccak 0x56 code cc bc s).1.memory = s.memory ∧
      (executeOpcode keccak 0x56 code cc bc s).1.storage = s.storage ∧
      (executeOpcode keccak 0x56 code cc bc s).1.returnData = s.returnData ∧
      ((executeOpcode keccak 0x56 code cc bc s).2 = .error (.exec .invalidJump) ↔
        (code.length ≤ dest ∨ dest ∉ jumpdests code)) ∧
      (dest < code.length → dest ∈ jumpdests code →
        (executeOpcode keccak 0x56 code cc bc s).2 = .ok .running ∧
          (executeOpcode keccak 0x56 code cc bc s).1.pc = dest) := by
  have e1 : executeOpcode keccak 0x56 code cc bc s = jumpOpHandler code s := rfl
  rw [e1]
  simp only [jumpOpHandler, hs]
  by_cases h1 : code.length ≤ dest
  · rw [jumpTo, if_pos h1]
    exact ⟨rfl, rfl, rfl, rfl, iff_of_true rfl (Or.inl h1), fun hlt _ => absurd h1 (by omega)⟩
  · by_cases h2 : isJumpdest code dest = true
    · rw [jumpTo, if_neg h1, if_pos h2]
      obtain ⟨hlt, hmem⟩ := (isJumpdest_iff code dest).mp h2
      refine ⟨rfl, rfl, rfl, rfl, iff_of_false (by simp) ?_, fun _ _ => ⟨rfl, rfl⟩⟩
      rintro (h | h)
      · omega
      · exact h hmem
    · rw [jumpTo, if_neg h1, if_neg h2]
      refine ⟨rfl, rfl, rfl, rfl, iff_of_true rfl (Or.inr ?_), fun hlt hmem => ?_⟩
      · intro hmem
        exact h2 ((isJumpdest_iff code dest).mpr ⟨by omega, hmem⟩)
      · exact absurd ((isJumpdest_iff code dest).mpr ⟨hlt, hmem⟩) h2

/-- Witness for C5: on the code `[0x5B]` (a lone `JUMPDEST`), jumping to 0
from the stack `[0]` succeeds, sets `pc = 0`, and leaves everything but
the popped destination unchanged. -/
theorem jump_semantics_witness :
    (executeOpcode zeroHash 0x56 [0x5B] ccDefault bcDefault ⟨1, [0], [], [], []⟩).1.stack
        = [] ∧
      (executeOpcode zeroHash 0x56 [0x5B] ccDefault bcDefault ⟨1, [0], [], [], []⟩).1.memory
        = [] ∧
      (executeOpcode zeroHash 0x56 [0x5B] ccDefault bcDefault ⟨1, [0], [], [], []⟩).1.storage
        = [] ∧
      (executeOpcode zeroHash 0x56 [0x5B] ccDefault bcDefault ⟨1, [0], [], [], []⟩).1.returnData
        = [] ∧
      ((executeOpcode zeroHash 0x56 [0x5B] ccDefault bcDefault ⟨1, [0], [], [], []⟩).2
          = .error (.exec .invalidJump) ↔
        ([0x5B] : List Nat).length ≤ 0 ∨ 0 ∉ jumpdests [0x5B]) ∧
      (0 < ([0x5B] : List Nat).length → 0 ∈ jumpdests [0x5B] →
        (executeOpcode zeroHash 0x56 [0x5B] ccDefault bcDefault ⟨1, [0], [], [], []⟩).2
            = .ok .running ∧
          (executeOpcode zeroHash 0x56 [0x5B] ccDefault bcDefault ⟨1, [0], [], [], []⟩).1.pc
            = 0) :=
  jump_semantics zeroHash [0x5B] ccDefault bcDefault ⟨1, [0], [], [], []⟩ 0 [] rfl

/-! ## `REVERT` and the loop's error conversion (claim C6) -/

/-- C6: when `REVERT(offset, length)` executes with `offset + length`
within `usize` and a successful memory access, the step appends the
`length` bytes of (grown) memory at `offset` to the return data and the
dispatch loop terminates with `error = Revert` and exactly that
accumulated return data. -/
theorem revert_semantics (keccak : List Nat → Nat) (code : List Nat) (cc : CallContext)
    (bc : BlockContext) (fuel : Nat) (s : VmState) (off len : Nat) (rest : List Nat)
    (m2 : List Nat)
    (hpc : s.pc < code.length)
    (hop : code.getD s.pc 0 = 0xFD)
    (hs : s.stack = off :: len :: rest)
    (hfit : off + len ≤ USIZE_MAX)
    (hmem : resizeIfNecessary s.memory (off + len) = .ok m2) :
    runLoop keccak code cc bc (fuel + 1) s =
      .out ⟨s.returnData ++ (m2.drop off).take len, some .revert⟩ := by
  simp only [runLoop]
  rw [if_neg (by omega)]
  have e1 : runNextStep keccak code cc bc s = revertHandler { s with pc := s.pc + 1 } := by
    unfold runNextStep
    rw [hop]
    rfl
  rw [e1]
  simp only [revertHandler, hs]
  have husz : USIZE_MAX < U256_MOD := by decide
  have hens : ensureOffsetAndLengthFitUsize off len = .ok () := by
    unfold ensureOffsetAndLengthFitUsize ensureFitsUsize
    rw [if_neg (by omega), if_neg (by omega)]
  rw [hens]
  have hread : memRead s.memory off len = .ok (m2, (m2.drop off).take len) := by
    unfold memRead
    rw [hmem]
  rw [hread]

/-- Witness for C6: `REVERT(0, 0)` on the one-byte code `[0xFD]` ends the
run with `error = Revert` and the (empty) appended data. -/
theorem revert_semantics_witness :
    runLoop zeroHash [0xFD] ccDefault bcDefault 1 ⟨0, [0, 0], [], [], []⟩ =
      .out ⟨[], some .revert⟩ :=
  revert_semantics zeroHash [0xFD] ccDefault bcDefault 0 ⟨0, [0, 0], [], [], []⟩ 0 0 [] []
    (by decide) rfl rfl (by decide) rfl

/-! ## `SHA3` on an offset past the memory size (claim C7) -/

/-- C7 counterexample: `SHA3` with `offset = 2^100 ≥ memory.size` and
`length = 1 < MEMORY_LIMIT` does not push any hash: the `usize` guard
`ensure_offset_and_length_fit_usize` fails first and the step errors with
`OutOfGas`, contradicting the claim's unconditional "otherwise the result
pushed is the Keccak-256 hash of `length` zero bytes". -/
theorem sha3_usize_guard_counterexample :
    (⟨0, [2 ^ 100, 1], [], [], []⟩ : VmState).memory.length ≤ 2 ^ 100 ∧
      (1 : Nat) < MEMORY_LIMIT ∧
      executeOpcode zeroHash 0x20 [] ccDefault bcDefault ⟨0, [2 ^ 100, 1], [], [], []⟩
        = (⟨0, [], [], [], []⟩, .error (.exec .outOfGas)) :=
  ⟨by decide, by decide, rfl⟩

/-- C7 (amended): when `SHA3(offset, length)` executes with
`offset ≥ memory.size`: if `length ≥ MEMORY_LIMIT` the step fails with
`OutOfGas`; otherwise, provided `offset + length` also fits in `usize`
(the handler's `ensure_offset_and_length_fit_usize` guard, which otherwise
fails with `OutOfGas` as well), the step pushes the Keccak-256 hash of
`length` zero bytes and leaves the memory (and its size) unchanged. -/
theorem sha3_zero_fill_semantics (keccak : List Nat → Nat) (code : List Nat)
    (cc : CallContext) (bc : BlockContext) (s : VmState) (off len : Nat)
    (rest : List Nat)
    (hs : s.stack = off :: len :: rest)
    (hoff : s.memory.length ≤ off)
    (hstk : s.stack.length ≤ MAX_STACK_DEPTH) :
    (MEMORY_LIMIT ≤ len →
      executeOpcode keccak 0x20 code cc bc s
        = ({ s with stack := rest }, .error (.exec .outOfGas))) ∧
    (len < MEMORY_LIMIT → off + len ≤ USIZE_MAX →
      executeOpcode keccak 0x20 code cc bc s
        = ({ s with stack := keccak (List.replicate len 0) :: rest }, .ok .running)) := by
  have e1 : executeOpcode keccak 0x20 code cc bc s = sha3Handler keccak s := rfl
  rw [e1]
  simp only [sha3Handler, hs]
  have hrest : rest.length + 2 ≤ MAX_STACK_DEPTH := by
    rw [hs] at hstk
    simpa using hstk
  constructor
  · intro hl
    by_cases hens : U256_MOD ≤ off + len
    · unfold ensureOffsetAndLengthFitUsize
      rw [if_pos hens]
    · by_cases hfit : USIZE_MAX < off + len
      · unfold ensureOffsetAndLengthFitUsize ensureFitsUsize
        rw [if_neg hens, if_pos hfit]
      · have hens2 : ensureOffsetAndLengthFitUsize off len = .ok () := by
          unfold ensureOffsetAndLengthFitUsize ensureFitsUsize
          rw [if_neg hens, if_neg hfit]
        rw [hens2]
        simp only
        rw [if_pos hoff, if_pos hl]
  · intro hl hfit
    have husz : USIZE_MAX < U256_MOD := by decide
    have hens2 : ensureOffsetAndLengthFitUsize off len = .ok () := by
      unfold ensureOffsetAndLengthFitUsize ensureFitsUsize
      rw [if_neg (by omega), if_neg (by omega)]
    rw [hens2]
    simp only
    rw [if_pos hoff, if_neg (by omega)]
    unfold pushV
    rw [if_neg (by simp; omega)]

/-- Witness for C7's amended theorem: `SHA3(0, 1)` on empty memory pushes
the hash of one zero byte (under the stand-in hash, `0`) and keeps memory
empty. -/
theorem sha3_zero_fill_semantics_witness :
    executeOpcode zeroHash 0x20 [] ccDefault bcDefault ⟨0, [0, 1], [], [], []⟩
      = (⟨0, [0], [], [], []⟩, .ok .running) :=
  (sha3_zero_fill_semantics zeroHash [] ccDefault bcDefault ⟨0, [0, 1], [], [], []⟩ 0 1 []
    rfl (by decide) (by decide)).2 (by decide) (by decide)

/-! ## `DIV` / `MOD` reconstruction (claim C8) -/

/-- C8: with operands `(a, b)` on the stack (`a` on top): for `b ≠ 0` the
values `q` pushed by `DIV` and `r` pushed by `MOD` satisfy
`q * b + r ≡ a (mod 2^256)`; for `b = 0` both `DIV` and `MOD` push `0`. -/
theorem div_mod_reconstruction (keccak : List Nat → Nat) (code : List Nat)
    (cc : CallContext) (bc : BlockContext) (s : VmState) (a b : Nat) (rest : List Nat)
    (hs : s.stack = a :: b :: rest)
    (hstk : s.stack.length ≤ MAX_STACK_DEPTH) :
    (b = 0 →
      executeOpcode keccak 0x04 code cc bc s
          = ({ s with stack := 0 :: rest }, .ok .running) ∧
        executeOpcode keccak 0x06 code cc bc s
          = ({ s with stack := 0 :: rest }, .ok .running)) ∧
    (b ≠ 0 →
      executeOpcode keccak 0x04 code cc bc s
          = ({ s with stack := a / b :: rest }, .ok .running) ∧
        executeOpcode keccak 0x06 code cc bc s
          = ({ s with stack := a % b :: rest }, .ok .running) ∧
        ((a / b) * b + a % b) % U256_MOD = a % U256_MOD) := by
  have ediv : executeOpcode keccak 0x04 code cc bc s
      = opBin (fun a b => if b = 0 then 0 else a / b) s := rfl
  have emod : executeOpcode keccak 0x06 code cc bc s
      = opBin (fun a b => if b = 0 then 0 else a % b) s := rfl
  have hrest : ¬(rest.length = MAX_STACK_DEPTH) := by
    rw [hs] at hstk
    simp only [List.length_cons] at hstk
    omega
  rw [ediv, emod]
  simp only [opBin, hs, pushV]
  simp only [if_neg hrest]
  constructor
  · intro hb
    subst hb
    simp
  · intro hb
    simp only [if_neg hb]
    refine ⟨trivial, trivial, ?_⟩
    rw [Nat.mul_comm, Nat.div_add_mod]

/-- Witness for C8: `a = 7`, `b = 2`: `DIV` pushes `3`, `MOD` pushes `1`,
and `3 * 2 + 1 = 7`. -/
theorem div_mod_reconstruction_witness :
    executeOpcode zeroHash 0x04 [] ccDefault bcDefault ⟨0, [7, 2], [], [], []⟩
        = (⟨0, [3], [], [], []⟩, .ok .running) ∧
      executeOpcode zeroHash 0x06 [] ccDefault bcDefault ⟨0, [7, 2], [], [], []⟩
        = (⟨0, [1], [], [], []⟩, .ok .running) ∧
      (3 * 2 + 1) % U256_MOD = 7 % U256_MOD :=
  (div_mod_reconstruction zeroHash [] ccDefault bcDefault ⟨0, [7, 2], [], [], []⟩ 7 2 []
    rfl (by decide)).2 (by decide)

/-! ## Determinism of `run` (claim C10) -/

theorem runLoop_mono (keccak : List Nat → Nat) (code : List Nat) (cc : CallContext)
    (bc : BlockContext) :
    ∀ (f1 : Nat) (s : VmState) (r : ExecutionResult),
      runLoop keccak code cc bc f1 s = .out r →
      ∀ f2, f1 ≤ f2 → runLoop keccak code cc bc f2 s = .out r := by
  intro f1
  induction f1 with
  | zero => intro s r h; simp [runLoop] at h
  | succ f1 ih =>
    intro s r h f2 hle
    obtain ⟨f2a, rfl⟩ : ∃ f2a, f2 = f2a + 1 := ⟨f2 - 1, by omega⟩
    simp only [runLoop] at h ⊢
    by_cases hpc : code.length ≤ s.pc
    · rw [if_pos hpc] at h ⊢
      exact h
    · rw [if_neg hpc] at h ⊢
      rcases hstep : runNextStep keccak code cc bc s with ⟨s2, r2⟩
      rw [hstep] at h
      match r2 with
      | .ok .running => exact ih s2 r h f2a (by omega)
      | .ok .halted => exact h
      | .error (.exec e) => exact h
      | .error .assertionFailed => exact h

/-- C10: `run` is deterministic — any two terminating runs with the same
bytecode, call context and block context (and the same external hash
function) produce the same `ExecutionResult`, regardless of the fuel spent
to reach termination. -/
theorem run_deterministic (keccak : List Nat → Nat) (code : List Nat)
    (cc : CallContext) (bc : BlockContext) (f1 f2 : Nat) (r1 r2 : ExecutionResult)
    (h1 : run keccak code cc bc f1 = .out r1)
    (h2 : run keccak code cc bc f2 = .out r2) : r1 = r2 := by
  unfold run at h1 h2
  rcases Nat.le_total f1 f2 with hle | hle
  · have h3 := runLoop_mono keccak code cc bc f1 VmState.new r1 h1 f2 hle
    rw [h3] at h2
    exact RunOutcome.out.inj h2
  · have h3 := runLoop_mono keccak code cc bc f2 VmState.new r2 h2 f1 hle
    rw [h3] at h1
    exact (RunOutcome.out.inj h1).symm

/-- Witness for C10: the code `[0x00]` (a lone `STOP`) terminates with the
empty result at fuels 1 and 5, and the theorem identifies the two
results. -/
theorem run_deterministic_witness :
    run zeroHash [0x00] ccDefault bcDefault 1 = .out ⟨[], none⟩ ∧
      run zeroHash [0x00] ccDefault bcDefault 5 = .out ⟨[], none⟩ ∧
      (⟨[], none⟩ : ExecutionResult) = ⟨[], none⟩ :=
  ⟨rfl, rfl,
    run_deterministic zeroHash [0x00] ccDefault bcDefault 1 5 ⟨[], none⟩ ⟨[], none⟩ rfl rfl⟩

end TinyEvm

